import Mathlib

/-!
Shallow embedding of the whiteboard task-management repository
(React client + Firebase Cloud Functions) in Lean 4.

Conventions of the embedding:
* JavaScript `Date` values are represented by their millisecond epoch value
  (`Int`, the value `Date.prototype.getTime()` returns); `Date` comparisons
  in the source compare these values.
* `date.getDay()` (the Sunday-based day-of-week number, 0..6) is passed
  explicitly as an `Int` argument named `currentDay` / `todayDayOfWeek`.
* Optional TypeScript fields (`field?: T`) become `Option` fields; the
  JavaScript truthiness tests of the source (`if (x)`) are translated on the
  `Option` (and, for strings, on emptiness; for numbers, on being nonzero)
  exactly where the source performs them.
* Firestore collections become Lean lists of documents; a query becomes a
  `List.filter`, `addDoc` an append, `updateDoc` a `List.map` that rewrites
  the matching document, `deleteDoc` a `List.filter` that drops it.
* Functions that `throw` become functions into `Except`, paired with the
  (unchanged) state when the claim speaks about what a failing call writes.
-/

/-- Day of week, `types.ts` (`'monday' | ... | 'sunday'`). -/
inductive DayOfWeek where
  | monday | tuesday | wednesday | thursday | friday | saturday | sunday
deriving DecidableEq, Repr

/-- Task type, `types.ts` (`'daily' | 'weekly' | 'main'`). -/
inductive TaskType where
  | daily | weekly | main
deriving DecidableEq, Repr

/-- Task status, `types.ts` (`'todo' | 'in_progress' | 'completed' | 'resumable'`). -/
inductive TaskStatus where
  | todo | in_progress | completed | resumable
deriving DecidableEq, Repr

namespace Functions

/-- `functions/src/types.ts` `Task` (the fields the functions read; the
reading code applies `data.assignedUserIds || []`, so the list is total). -/
structure Task where
  id : String
  title : String
  type : TaskType
  status : TaskStatus
  assignedUserIds : List String
  createdBy : String
  dueDate : Option Int
  weeklyDayOfWeek : Option DayOfWeek
  createdAt : Int
  updatedAt : Int
deriving DecidableEq, Repr

/-- `functions/src/types.ts` `User`. -/
structure User where
  id : String
  employeeId : String
  name : String
  isAttending : Bool
  createdAt : Int
  updatedAt : Int
deriving DecidableEq, Repr

/-- One element of `OverdueCheckResult.overdueTasks`, `functions/src/types.ts`. -/
structure OverdueTaskEntry where
  id : String
  title : String
  assignedUsers : List String
  dayOfWeek : Option String
  daysOverdue : Int
deriving DecidableEq, Repr

/-- `functions/src/types.ts` `OverdueCheckResult`. -/
structure OverdueCheckResult where
  totalChecked : Int
  overdueCount : Int
  overdueTasks : List OverdueTaskEntry
  processedAt : Int
deriving DecidableEq, Repr

namespace WeeklyTaskChecker

/-- `WeeklyTaskChecker.getDayOfWeekLabel`: Japanese display label of a day. -/
def getDayOfWeekLabel (dayOfWeek : DayOfWeek) : String :=
  match dayOfWeek with
  | .monday => "月曜日"
  | .tuesday => "火曜日"
  | .wednesday => "水曜日"
  | .thursday => "木曜日"
  | .friday => "金曜日"
  | .saturday => "土曜日"
  | .sunday => "日曜日"

/-- `WeeklyTaskChecker.dayOfWeekToNumber`: Sunday = 0, Monday = 1, ... -/
def dayOfWeekToNumber (dayOfWeek : DayOfWeek) : Int :=
  match dayOfWeek with
  | .sunday => 0
  | .monday => 1
  | .tuesday => 2
  | .wednesday => 3
  | .thursday => 4
  | .friday => 5
  | .saturday => 6

/-- `WeeklyTaskChecker.getDaysOverdue`: days elapsed past the configured
day of week. `currentDay` is `currentDate.getDay()` of the source. -/
def getDaysOverdue (targetDayOfWeek : DayOfWeek) (currentDay : Int) : Int :=
  let targetDay := dayOfWeekToNumber targetDayOfWeek
  if currentDay ≤ targetDay then 0
  else currentDay - targetDay

/-- `WeeklyTaskChecker.getOverdueWeeklyTasks`: the Firestore query keeps
tasks with `type == 'weekly'` and `status != 'completed'`; the loop then
keeps a task by the day-of-week delta when `weeklyDayOfWeek` is set and by
`currentDate > dueDate` otherwise. `now` is the current epoch millisecond,
`currentDay` its `getDay()`. -/
def getOverdueWeeklyTasks (now currentDay : Int) (tasks : List Task) : List Task :=
  (tasks.filter fun t => decide (t.type = .weekly) && !decide (t.status = .completed)).filter
    fun t =>
      match t.weeklyDayOfWeek with
      | some d => decide (0 < getDaysOverdue d currentDay)
      | none =>
        match t.dueDate with
        | some dd => decide (dd < now)
        | none => false

/-- Lookup of `usersMap.get(userId)?.name || `不明(${userId})``. -/
def userNameOrUnknown (users : List User) (userId : String) : String :=
  match users.find? fun u => decide (u.id = userId) with
  | some u => if u.name = "" then "不明(" ++ userId ++ ")" else u.name
  | none => "不明(" ++ userId ++ ")"

/-- `Math.ceil(a / b)` on exact integers, `b > 0` (used for the date-based
`daysOverdue` of the report). -/
def ceilDivInt (a b : Int) : Int := -((-a) / b)

/-- The entry `generateOverdueReport` pushes for one overdue task. -/
def overdueTaskEntry (now currentDay : Int) (users : List User) (t : Task) :
    OverdueTaskEntry :=
  let assignedUserNames :=
    (t.assignedUserIds.map (userNameOrUnknown users)).filter fun n => !n.isEmpty
  let daysOverdue :=
    match t.weeklyDayOfWeek with
    | some d => getDaysOverdue d currentDay
    | none =>
      match t.dueDate with
      | some dd => ceilDivInt (now - dd) (1000 * 60 * 60 * 24)
      | none => 0
  { id := t.id
    title := t.title
    assignedUsers := assignedUserNames
    dayOfWeek := t.weeklyDayOfWeek.map getDayOfWeekLabel
    daysOverdue := daysOverdue }

/-- `WeeklyTaskChecker.generateOverdueReport`: builds the summary document
from the task and user collections. `totalChecked` counts every task of
type `'weekly'`, `overdueCount` is taken from the overdue list's length. -/
def generateOverdueReport (now currentDay : Int) (tasks : List Task)
    (users : List User) : OverdueCheckResult :=
  let overdueTasks := getOverdueWeeklyTasks now currentDay tasks
  { totalChecked := ((tasks.filter fun t => decide (t.type = .weekly)).length : Int)
    overdueCount := (overdueTasks.length : Int)
    overdueTasks := overdueTasks.map (overdueTaskEntry now currentDay users)
    processedAt := now }

/-- `WeeklyTaskChecker.saveReport`: one `add` on the `overdueReports`
collection. -/
def saveReport (report : OverdueCheckResult)
    (overdueReports : List OverdueCheckResult) : List OverdueCheckResult :=
  overdueReports ++ [report]

end WeeklyTaskChecker

/-- `checkWeeklyTaskDeadlines` (`index.ts`): one scheduled run generates the
report and saves it; the new state of the `overdueReports` collection. -/
def checkWeeklyTaskDeadlines (now currentDay : Int) (tasks : List Task)
    (users : List User) (overdueReports : List OverdueCheckResult) :
    List OverdueCheckResult :=
  WeeklyTaskChecker.saveReport
    (WeeklyTaskChecker.generateOverdueReport now currentDay tasks users)
    overdueReports

end Functions

namespace Client

/-- `src/types/index.ts` `Task`, restricted to the fields the client logic
under verification reads (`description`, `workEndTime`, `totalWorkTime` and
`color` are carried nowhere in the claims' code). Optional fields are
`Option`; `isPriority` is the optional boolean flag the personal-tasks sort
reads with `a.isPriority === true`. -/
structure Task where
  id : String
  title : String
  type : TaskType
  status : TaskStatus
  assignedUserIds : Option (List String)
  createdBy : String
  dueDate : Option Int
  weeklyDayOfWeek : Option DayOfWeek
  isPriority : Option Bool
  workStartTime : Option Int
  createdAt : Int
  updatedAt : Int
deriving DecidableEq, Repr

/-- `src/types/index.ts` `User`, restricted likewise (the optional
department / division / employee-type labels play no role in the claims'
code). -/
structure User where
  id : String
  employeeId : String
  name : String
  isAttending : Bool
  createdAt : Int
  updatedAt : Int
deriving DecidableEq, Repr

namespace PersonalTasks

/-- `PersonalTasks.getMyTasks`: `allTasks.filter(task =>
task.assignedUserIds && task.assignedUserIds.includes(currentUser.id))`. -/
def getMyTasks (currentUserId : String) (allTasks : List Task) : List Task :=
  allTasks.filter fun task =>
    match task.assignedUserIds with
    | some ids => ids.contains currentUserId
    | none => false

/-- `a.isPriority === true ? 1 : 0` of the sort comparator. -/
def priorityNum (t : Task) : Int :=
  if t.isPriority = some true then 1 else 0

/-- The sort comparator of `getFilteredAndSortedTasks`:
`priorityB - priorityA` when the priorities differ, else
`b.createdAt.getTime() - a.createdAt.getTime()`. -/
def sortCompare (a b : Task) : Int :=
  if priorityNum a ≠ priorityNum b then priorityNum b - priorityNum a
  else b.createdAt - a.createdAt

/-- `a` may come no later than `b` under the comparator: the (total,
transitive) order `Array.prototype.sort` sorts by. -/
def sortLE (a b : Task) : Prop := sortCompare a b ≤ 0

instance : DecidableRel sortLE := fun a b =>
  inferInstanceAs (Decidable (sortCompare a b ≤ 0))

instance : IsTotal Task sortLE where
  total a b := by
    unfold sortLE sortCompare
    split <;> split <;> omega

instance : IsTrans Task sortLE where
  trans a b c hab hbc := by
    unfold sortLE sortCompare at hab hbc ⊢
    split at hab <;> split at hbc <;> split <;> omega

/-- The pre-sort list of `getFilteredAndSortedTasks`: own tasks, filtered by
the selected task type (`none` stands for the `'all'` selection). -/
def filteredMyTasks (currentUserId : String) (selectedTaskType : Option TaskType)
    (allTasks : List Task) : List Task :=
  let myTasks := getMyTasks currentUserId allTasks
  match selectedTaskType with
  | none => myTasks
  | some ty => myTasks.filter fun task => decide (task.type = ty)

/-- `PersonalTasks.getFilteredAndSortedTasks`: filter, then
`filtered.sort(comparator)`. `Array.prototype.sort` with a consistent
comparator returns a stable permutation sorted by the comparator's order;
insertion sort realizes exactly that for `sortLE`. -/
def getFilteredAndSortedTasks (currentUserId : String)
    (selectedTaskType : Option TaskType) (allTasks : List Task) : List Task :=
  List.insertionSort sortLE (filteredMyTasks currentUserId selectedTaskType allTasks)

end PersonalTasks

/-- Alert classification of `AlertPanel.getAlertType`. -/
inductive AlertType where
  | overdue | long_running | warning
deriving DecidableEq, Repr

namespace AlertPanel

/-- `AlertPanel.getAlertType` (`MainTaskArea.tsx`): a weekly task whose
`dueDate` lies before `now` is `'overdue'`; otherwise a main task in
progress with a `workStartTime` is `'long_running'` when
`(now - workStartTime) / (1000*60*60) > 4` hours; everything else is
`'warning'`. -/
def getAlertType (now : Int) (task : Task) : AlertType :=
  if decide (task.type = .weekly) &&
      (match task.dueDate with
       | some dd => decide (dd < now)
       | none => false) then
    .overdue
  else
    match task.type, task.status, task.workStartTime with
    | .main, .in_progress, some workStartTime =>
      let hoursInProgress : ℚ := ((now - workStartTime : Int) : ℚ) / (1000 * 60 * 60)
      if 4 < hoursInProgress then .long_running else .warning
    | _, _, _ => .warning

end AlertPanel

namespace TaskManagement

/-- The day-of-week table `isOverdue` declares inline
(`{'sunday': 0, ..., 'saturday': 6}`). -/
def dayOfWeekMap (d : DayOfWeek) : Int :=
  match d with
  | .sunday => 0
  | .monday => 1
  | .tuesday => 2
  | .wednesday => 3
  | .thursday => 4
  | .friday => 5
  | .saturday => 6

/-- `TaskManagement.isOverdue` (`MainTaskArea.tsx`): only non-completed
weekly tasks can be overdue; with `weeklyDayOfWeek` set the check is
`today.getDay() > dayOfWeekMap[weeklyDayOfWeek]`, otherwise the date-based
fallback `new Date() > dueDate`. -/
def isOverdue (todayDayOfWeek now : Int) (task : Task) : Bool :=
  if !decide (task.type = .weekly) || decide (task.status = .completed) then
    false
  else
    match task.weeklyDayOfWeek with
    | some d => decide (dayOfWeekMap d < todayDayOfWeek)
    | none =>
      match task.dueDate with
      | some dd => decide (dd < now)
      | none => false

end TaskManagement

end Client

namespace Client.FirestoreService

/-- `src/types/index.ts` `WorkSession`. -/
structure WorkSession where
  id : String
  taskId : String
  userId : String
  startTime : Int
  endTime : Option Int
  duration : Option Int
  date : String
  isActive : Bool
  createdAt : Int
  updatedAt : Int
deriving DecidableEq, Repr

/-- `FirestoreService.getActiveWorkSession`: the query
`taskId == ∧ userId == ∧ isActive == true`, of which the code takes
`docs[0]`. -/
def getActiveWorkSession (taskId userId : String)
    (workSessions : List WorkSession) : Option WorkSession :=
  (workSessions.filter fun w =>
    decide (w.taskId = taskId) && decide (w.userId = userId) && w.isActive).head?

/-- `FirestoreService.startWorkSession`: refuses (throwing, after the
catch-all rewrap, `'作業セッションの開始に失敗しました'`) when an active
session for the task-user pair exists, else `addDoc`s one new active
session. `newId` stands for the document id Firestore generates, `date`
for `new Date().toISOString().split('T')[0]`. -/
def startWorkSession (taskId userId : String) (now : Int) (date newId : String)
    (workSessions : List WorkSession) :
    Except String (WorkSession × List WorkSession) :=
  match getActiveWorkSession taskId userId workSessions with
  | some _ => .error "作業セッションの開始に失敗しました"
  | none =>
    let newSession : WorkSession :=
      { id := newId, taskId := taskId, userId := userId, startTime := now
        endTime := none, duration := none, date := date, isActive := true
        createdAt := now, updatedAt := now }
    .ok (newSession, workSessions ++ [newSession])

/-- The fields `endWorkSession`'s `updateDoc` writes on the document whose
id matches the active session. -/
def closeSession (now duration : Int) (w : WorkSession) : WorkSession :=
  { w with endTime := some now, duration := some duration, isActive := false
           updatedAt := now }

/-- `FirestoreService.endWorkSession`: finds the active session of the
pair (throwing when none), computes
`Math.round((endTime - startTime) / (1000 * 60))` minutes and updates that
document to inactive with its duration. -/
def endWorkSession (taskId userId : String) (now : Int)
    (workSessions : List WorkSession) :
    Except String (WorkSession × List WorkSession) :=
  match getActiveWorkSession taskId userId workSessions with
  | none => .error "作業セッションの終了に失敗しました"
  | some activeSession =>
    let duration : Int :=
      round (((now - activeSession.startTime : Int) : ℚ) / (1000 * 60))
    .ok (closeSession now duration activeSession,
      workSessions.map fun w =>
        if w.id = activeSession.id then closeSession now duration w else w)

/-- `FirestoreService.getDailyWorkTime`: sums `duration` over the completed
(`isActive == false`) sessions of the task and day; the loop guard
`if (data.duration)` adds only truthy (present, nonzero) durations. -/
def getDailyWorkTime (taskId : String) (date : String)
    (workSessions : List WorkSession) : Int :=
  ((workSessions.filter fun w =>
      decide (w.taskId = taskId) && decide (w.date = date) && !w.isActive).map
    fun w =>
      match w.duration with
      | some d => if d ≠ 0 then d else 0
      | none => 0).sum

/-- Two sessions double-book a task-user pair when both are active for the
same pair. -/
def conflict (a b : WorkSession) : Prop :=
  a.isActive = true ∧ b.isActive = true ∧ a.taskId = b.taskId ∧ a.userId = b.userId

/-- The "don't double count" invariant: no two sessions of the collection
are simultaneously active for the same task-user pair. -/
def AtMostOneActive (workSessions : List WorkSession) : Prop :=
  workSessions.Pairwise fun a b => ¬ conflict a b

end Client.FirestoreService

namespace Functions

/-- The `HttpsError` codes `deleteUser` throws. -/
inductive HttpsErrorCode where
  | unauthenticated | invalid_argument | not_found | internal
deriving DecidableEq, Repr

/-- The Firestore state the user-deletion entry point touches. -/
structure FirestoreState where
  users : List User
  tasks : List Task
deriving DecidableEq, Repr

/-- The `deletedUser` payload of `deleteUser`'s success response. -/
structure DeletedUserInfo where
  id : String
  name : String
  employeeId : String
deriving DecidableEq, Repr

/-- The update `cleanupUserTasks` batches for one task matched by the
`array-contains` query: drop the removed user from `assignedUserIds`
(other entries stay, in order) and touch `updatedAt`; an unmatched task is
untouched. -/
def cleanupTask (userId : String) (now : Int) (t : Task) : Task :=
  if t.assignedUserIds.contains userId then
    { t with assignedUserIds := t.assignedUserIds.filter fun i => !decide (i = userId)
             updatedAt := now }
  else t

/-- `cleanupUserTasks` (`index.ts`): removes the deleted user from every
task's `assignedUserIds`. -/
def cleanupUserTasks (userId : String) (now : Int) (tasks : List Task) :
    List Task :=
  tasks.map (cleanupTask userId now)

/-- `deleteUser` callable (`index.ts`). `authUid` is `context.auth?.uid`;
`userIdArg` the request's `userId` field (`none` when absent, and the
JavaScript guard `if (!userId)` also catches the empty string). Checks run
in source order: authentication, missing id, self-deletion, existence; the
successful path deletes the user document and cleans the tasks. (The
Firebase-Authentication account deletion has no Firestore effect and is
not part of the modelled state.) -/
def deleteUser (authUid : Option String) (userIdArg : Option String) (now : Int)
    (st : FirestoreState) : Except HttpsErrorCode DeletedUserInfo × FirestoreState :=
  match authUid with
  | none => (.error .unauthenticated, st)
  | some uid =>
    match userIdArg with
    | none => (.error .invalid_argument, st)
    | some userId =>
      if userId = "" then (.error .invalid_argument, st)
      else if uid = userId then (.error .invalid_argument, st)
      else
        match st.users.find? fun u => decide (u.id = userId) with
        | none => (.error .not_found, st)
        | some userData =>
          (.ok { id := userId, name := userData.name, employeeId := userData.employeeId },
            { users := st.users.filter fun u => !decide (u.id = userId)
              tasks := cleanupUserTasks userId now st.tasks })

end Functions

namespace Client.FirestoreService

/-- The argument of `FirestoreService.createUser`
(`Omit<User, 'id' | 'createdAt' | 'updatedAt'>`, restricted to the fields
the claims' code reads). -/
structure NewUserData where
  employeeId : String
  name : String
  isAttending : Bool
deriving DecidableEq, Repr

/-- The user document `createUser`'s `addDoc` writes. `newId` stands for
the document id Firestore generates. -/
def newUserDoc (userData : NewUserData) (newId : String) (now : Int) : User :=
  { id := newId, employeeId := userData.employeeId, name := userData.name
    isAttending := userData.isAttending, createdAt := now, updatedAt := now }

/-- `FirestoreService.createUser`: queries the users whose `employeeId`
equals the requested one; when that query is non-empty it throws
`'この社員番号は既に使用されています'` (adding nothing), else it `addDoc`s
the new user document. -/
def createUser (userData : NewUserData) (newId : String) (now : Int)
    (users : List User) : Except String (String × List User) :=
  if !(users.filter fun u => decide (u.employeeId = userData.employeeId)).isEmpty then
    .error "この社員番号は既に使用されています"
  else
    .ok (newId, users ++ [newUserDoc userData newId now])

/-- A sequence of `createUser` calls: a failing call leaves the collection
as it was, a successful one installs the new collection. -/
def runCreates (reqs : List (NewUserData × String × Int)) (users : List User) :
    List User :=
  match reqs with
  | [] => users
  | (userData, newId, now) :: rest =>
    match createUser userData newId now users with
    | .ok (_, users') => runCreates rest users'
    | .error _ => runCreates rest users

end Client.FirestoreService

namespace Client.FirestoreService

/-- A concrete active session used to instantiate the session invariant. -/
def sampleWorkSession : WorkSession :=
  { id := "s1", taskId := "t1", userId := "u1", startTime := 0, endTime := none
    duration := none, date := "2024-05-01", isActive := true, createdAt := 0
    updatedAt := 0 }

end Client.FirestoreService

namespace Functions

/-- How an exported Cloud Function is triggered. -/
inductive TriggerKind where
  | scheduled | callable | httpRequest
deriving DecidableEq, Repr

/-- The kind of a Firestore data access: a `scan` is a `get()` of a
collection or query (whatever `where` / `orderBy` / `limit` refinements
shape it), the `doc*` verbs act on a single document (a batched update is
still an update), `listen` is an `onSnapshot` subscription. -/
inductive FirestoreOp where
  | scan | docGet | docAdd | docSet | docUpdate | docDelete | listen
deriving DecidableEq, Repr

/-- One Firestore access: the collection touched and the operation kind. -/
structure FirestoreAccess where
  collection : String
  op : FirestoreOp
deriving DecidableEq, Repr

/-- One exported entry point of `functions/src/index.ts`. -/
structure CloudFunction where
  name : String
  trigger : TriggerKind
  schedule : Option String
  accesses : List FirestoreAccess
deriving DecidableEq, Repr

/-- The accesses of one `generateOverdueReport` + `saveReport` run
(`weeklyTaskChecker.ts`): the overdue-task query on `tasks`, the `users`
scan, the all-weekly-tasks count query on `tasks`, and the report `add`. -/
def checkerReportAccesses : List FirestoreAccess :=
  [{ collection := "tasks", op := .scan },
   { collection := "users", op := .scan },
   { collection := "tasks", op := .scan },
   { collection := "overdueReports", op := .docAdd }]

/-- The exports of `functions/src/index.ts`, in source order, with their
trigger kind, cron schedule and Firestore accesses (`deleteUser`'s
Firebase-Authentication account deletion is not a Firestore access). -/
def moduleExports : List CloudFunction :=
  [{ name := "checkWeeklyTaskDeadlines", trigger := .scheduled
     schedule := some "0 9 * * *", accesses := checkerReportAccesses },
   { name := "manualCheckWeeklyDeadlines", trigger := .callable
     schedule := none, accesses := checkerReportAccesses },
   { name := "getOverdueReports", trigger := .callable, schedule := none
     accesses := [{ collection := "overdueReports", op := .scan }] },
   { name := "deleteUser", trigger := .callable, schedule := none
     accesses := [{ collection := "users", op := .docGet },
                  { collection := "users", op := .docDelete },
                  { collection := "tasks", op := .scan },
                  { collection := "tasks", op := .docUpdate }] },
   { name := "healthCheck", trigger := .httpRequest, schedule := none
     accesses := [] }]

/-- The Firestore accesses of the client's data-access layer
(`FirestoreService`, `authService.ts`, `createTestUser.ts`), one entry per
collection-operation pair occurring in that code. -/
def clientFirestoreAccesses : List FirestoreAccess :=
  [{ collection := "users", op := .scan },
   { collection := "users", op := .docGet },
   { collection := "users", op := .docAdd },
   { collection := "users", op := .docSet },
   { collection := "users", op := .docDelete },
   { collection := "users", op := .listen },
   { collection := "tasks", op := .scan },
   { collection := "tasks", op := .docGet },
   { collection := "tasks", op := .docAdd },
   { collection := "tasks", op := .docUpdate },
   { collection := "tasks", op := .docDelete },
   { collection := "tasks", op := .listen },
   { collection := "attendance", op := .scan },
   { collection := "attendance", op := .docAdd },
   { collection := "attendance", op := .docUpdate },
   { collection := "attendance", op := .listen },
   { collection := "masterData", op := .scan },
   { collection := "masterData", op := .docAdd },
   { collection := "masterData", op := .docUpdate },
   { collection := "workSessions", op := .scan },
   { collection := "workSessions", op := .docAdd },
   { collection := "workSessions", op := .docUpdate },
   { collection := "workSessions", op := .docDelete },
   { collection := "workSessions", op := .listen }]

end Functions

namespace Functions.WeeklyTaskChecker

theorem dayOfWeekToNumber_nonneg (d : DayOfWeek) : 0 ≤ dayOfWeekToNumber d := by
  cases d <;> simp [dayOfWeekToNumber]

theorem dayOfWeekToNumber_le_six (d : DayOfWeek) : dayOfWeekToNumber d ≤ 6 := by
  cases d <;> simp [dayOfWeekToNumber]

end Functions.WeeklyTaskChecker

open Functions.WeeklyTaskChecker in
/-- C1: `getDaysOverdue` compares the configured day-of-week number against
the current day-of-week number: it returns `currentDay - n(d)` when
`currentDay > n(d)` and `0` when `currentDay ≤ n(d)`; equivalently
`max 0 (currentDay - n(d))`, always between 0 and 6 for a real
`getDay()` value (`0 ≤ currentDay < 7`). -/
theorem getDaysOverdue_spec (d : DayOfWeek) (currentDay : Int)
    (h0 : 0 ≤ currentDay) (h7 : currentDay < 7) :
    (dayOfWeekToNumber d < currentDay →
      getDaysOverdue d currentDay = currentDay - dayOfWeekToNumber d) ∧
    (currentDay ≤ dayOfWeekToNumber d → getDaysOverdue d currentDay = 0) ∧
    getDaysOverdue d currentDay = max 0 (currentDay - dayOfWeekToNumber d) ∧
    0 ≤ getDaysOverdue d currentDay ∧ getDaysOverdue d currentDay ≤ 6 := by
  have hn0 := dayOfWeekToNumber_nonneg d
  have hn6 := dayOfWeekToNumber_le_six d
  unfold getDaysOverdue
  rcases le_or_lt currentDay (dayOfWeekToNumber d) with h | h
  · rw [if_pos h]
    refine ⟨fun hc => absurd hc (not_lt.mpr h), fun _ => rfl, ?_, le_refl 0, by norm_num⟩
    rw [max_eq_left (by omega)]
  · rw [if_neg (not_le.mpr h)]
    refine ⟨fun _ => rfl, fun hc => absurd h (not_lt.mpr hc), ?_, by omega, by omega⟩
    rw [max_eq_right (by omega)]

/-- C1 witness: the specification evaluated at Wednesday as the configured
day with the current date a Friday (`getDay() = 5`). -/
theorem getDaysOverdue_spec_witness :
    (Functions.WeeklyTaskChecker.dayOfWeekToNumber .wednesday < 5 →
      Functions.WeeklyTaskChecker.getDaysOverdue .wednesday 5 =
        5 - Functions.WeeklyTaskChecker.dayOfWeekToNumber .wednesday) ∧
    (5 ≤ Functions.WeeklyTaskChecker.dayOfWeekToNumber .wednesday →
      Functions.WeeklyTaskChecker.getDaysOverdue .wednesday 5 = 0) ∧
    Functions.WeeklyTaskChecker.getDaysOverdue .wednesday 5 =
      max 0 (5 - Functions.WeeklyTaskChecker.dayOfWeekToNumber .wednesday) ∧
    0 ≤ Functions.WeeklyTaskChecker.getDaysOverdue .wednesday 5 ∧
    Functions.WeeklyTaskChecker.getDaysOverdue .wednesday 5 ≤ 6 :=
  getDaysOverdue_spec .wednesday 5 (by norm_num) (by norm_num)

namespace Client.PersonalTasks

theorem priorityNum_nonneg (t : Task) : 0 ≤ priorityNum t := by
  unfold priorityNum; split <;> norm_num

theorem priorityNum_le_one (t : Task) : priorityNum t ≤ 1 := by
  unfold priorityNum; split <;> norm_num

theorem priorityNum_eq_one_iff (t : Task) :
    priorityNum t = 1 ↔ t.isPriority = some true := by
  unfold priorityNum; split <;> simp_all

theorem sortLE_iff (a b : Task) :
    sortLE a b ↔
      priorityNum b < priorityNum a ∨
        (priorityNum a = priorityNum b ∧ b.createdAt ≤ a.createdAt) := by
  unfold sortLE sortCompare
  split <;> rename_i h <;> constructor <;> intro hx <;> omega

end Client.PersonalTasks

open Client.PersonalTasks in
/-- C3: the personal-tasks view sorts by priority then recency: in the list
`getFilteredAndSortedTasks` returns (a permutation of the filtered own
tasks), whenever one task precedes another, the later one being priority
forces the earlier one to be priority too (so every `isPriority = true`
task precedes every task whose `isPriority` is not `true`), and among equal
priorities the earlier task's `createdAt` is the later or equal one
(newest first). -/
theorem getFilteredAndSortedTasks_spec (currentUserId : String)
    (selectedTaskType : Option TaskType) (allTasks : List Client.Task) :
    (getFilteredAndSortedTasks currentUserId selectedTaskType allTasks).Pairwise
      (fun a b =>
        (b.isPriority = some true → a.isPriority = some true) ∧
        (priorityNum a = priorityNum b → b.createdAt ≤ a.createdAt)) ∧
    (getFilteredAndSortedTasks currentUserId selectedTaskType allTasks).Perm
      (filteredMyTasks currentUserId selectedTaskType allTasks) := by
  constructor
  · have hs := List.sorted_insertionSort sortLE
      (filteredMyTasks currentUserId selectedTaskType allTasks)
    refine List.Pairwise.imp ?_ hs
    intro a b hab
    rw [sortLE_iff] at hab
    have ha1 := priorityNum_le_one a
    have hb0 := priorityNum_nonneg b
    constructor
    · intro hbp
      have hb1 : priorityNum b = 1 := (priorityNum_eq_one_iff b).mpr hbp
      have : priorityNum a = 1 := by omega
      exact (priorityNum_eq_one_iff a).mp this
    · intro heq
      rcases hab with h | ⟨_, h⟩
      · omega
      · exact h
  · exact List.perm_insertionSort sortLE _

open Client.PersonalTasks in
/-- C5: `getMyTasks` returns exactly the tasks whose `assignedUserIds` is
present and contains the current user's id. -/
theorem getMyTasks_spec (currentUserId : String) (allTasks : List Client.Task)
    (task : Client.Task) :
    task ∈ getMyTasks currentUserId allTasks ↔
      task ∈ allTasks ∧
        ∃ ids, task.assignedUserIds = some ids ∧ currentUserId ∈ ids := by
  unfold getMyTasks
  rw [List.mem_filter]
  cases h : task.assignedUserIds with
  | none => simp [h]
  | some ids => simp [h, List.contains_iff_exists_mem_beq, beq_iff_eq, eq_comm]

namespace Client.AlertPanel

theorem hours_gt_four_iff (now s : Int) :
    (4 : ℚ) < ((now - s : Int) : ℚ) / (1000 * 60 * 60) ↔
      4 * (1000 * 60 * 60) < now - s := by
  rw [lt_div_iff₀ (by norm_num)]
  constructor
  · intro h; exact_mod_cast h
  · intro h; exact_mod_cast h

end Client.AlertPanel

open Client.AlertPanel in
/-- C4: `getAlertType` classifies a weekly task whose `dueDate` precedes the
current time as `overdue`; a `main` task with status `in_progress` and a
recorded `workStartTime` is `long_running` exactly when strictly more than
4 hours (in milliseconds, `4 * 1000 * 60 * 60`) have elapsed; every other
task is `warning`. -/
theorem getAlertType_spec (now : Int) (task : Client.Task) :
    (task.type = .weekly → ∀ dd, task.dueDate = some dd → dd < now →
      getAlertType now task = .overdue) ∧
    (task.type = .main → task.status = .in_progress →
      ∀ s, task.workStartTime = some s →
        (getAlertType now task = .long_running ↔
          4 * (1000 * 60 * 60) < now - s)) ∧
    (¬ (task.type = .weekly ∧ ∃ dd, task.dueDate = some dd ∧ dd < now) →
      ¬ (task.type = .main ∧ task.status = .in_progress ∧
          ∃ s, task.workStartTime = some s ∧ 4 * (1000 * 60 * 60) < now - s) →
      getAlertType now task = .warning) := by
  refine ⟨?_, ?_, ?_⟩
  · intro hty dd hdd hlt
    simp [getAlertType, hty, hdd, hlt]
  · intro hty hst s hs
    simp only [getAlertType, hty, hs, hst]
    rw [if_neg (by simp)]
    constructor
    · intro h
      by_contra hle
      rw [if_neg (fun hq => hle ((hours_gt_four_iff now s).mp hq))] at h
      exact absurd h (by simp)
    · intro h
      rw [if_pos ((hours_gt_four_iff now s).mpr h)]
  · intro h1 h2
    unfold getAlertType
    split
    · rename_i h
      rw [Bool.and_eq_true, decide_eq_true_eq] at h
      obtain ⟨hty, hmatch⟩ := h
      exfalso
      cases hdd : task.dueDate with
      | none => rw [hdd] at hmatch; exact absurd hmatch (by simp)
      | some dd =>
        rw [hdd] at hmatch
        exact h1 ⟨hty, dd, hdd, of_decide_eq_true hmatch⟩
    · rename_i hcond
      cases hty : task.type <;> cases hst : task.status <;>
        cases hw : task.workStartTime <;> simp [hty, hst, hw]
      rename_i s
      have hns : now - s ≤ 4 * (1000 * 60 * 60) := by
        by_contra hlt
        exact h2 ⟨hty, hst, s, hw, by omega⟩
      rw [div_le_iff₀ (by norm_num)]
      have : ((now - s : Int) : ℚ) ≤ ((4 * (1000 * 60 * 60) : Int) : ℚ) := by
        exact_mod_cast hns
      push_cast at this ⊢
      linarith

namespace Client.TaskManagement

theorem dayOfWeekMap_nonneg (d : DayOfWeek) : 0 ≤ dayOfWeekMap d := by
  cases d <;> simp [dayOfWeekMap]

theorem dayOfWeekMap_saturday : dayOfWeekMap .saturday = 6 := rfl

end Client.TaskManagement

open Functions.WeeklyTaskChecker Client.TaskManagement in
/-- C8: the day-of-week check compares only Sunday-based day numbers of the
current week, so on a Sunday (`getDay() = 0`) every weekly task with a
configured day has delta 0 and is not overdue, regardless of the day; and a
task configured for `saturday` (day number 6) is never reported overdue by
the day-of-week check on any date. -/
theorem dayOfWeekCheck_sunday_saturday_spec (task : Client.Task) (d : DayOfWeek)
    (now currentDay : Int) (h0 : 0 ≤ currentDay) (h7 : currentDay < 7) :
    getDaysOverdue d 0 = 0 ∧
    getDaysOverdue .saturday currentDay = 0 ∧
    (task.weeklyDayOfWeek = some d → isOverdue 0 now task = false) ∧
    (task.weeklyDayOfWeek = some .saturday →
      isOverdue currentDay now task = false) := by
  have hd0 := dayOfWeekToNumber_nonneg d
  refine ⟨?_, ?_, ?_, ?_⟩
  · unfold getDaysOverdue
    rw [if_pos hd0]
  · unfold getDaysOverdue
    rw [if_pos (by rw [show dayOfWeekToNumber .saturday = 6 from rfl]; omega)]
  · intro hw
    unfold isOverdue
    split
    · rfl
    · rw [hw]
      simp only [decide_eq_false_iff_not, not_lt]
      exact dayOfWeekMap_nonneg d
  · intro hw
    unfold isOverdue
    split
    · rfl
    · rw [hw]
      exact decide_eq_false (by rw [dayOfWeekMap_saturday]; omega)

/-- C8 witness: a weekly task configured for Friday is not overdue on a
Sunday, and one configured for Saturday is not overdue on a Thursday
(`getDay() = 4`). -/
theorem dayOfWeekCheck_sunday_saturday_spec_witness :
    Functions.WeeklyTaskChecker.getDaysOverdue .friday 0 = 0 ∧
    Functions.WeeklyTaskChecker.getDaysOverdue .saturday 4 = 0 ∧
    (({ id := "t1", title := "weekly report", type := .weekly, status := .todo,
        assignedUserIds := some ["u1"], createdBy := "u0", dueDate := none,
        weeklyDayOfWeek := some .friday, isPriority := none,
        workStartTime := none, createdAt := 0, updatedAt := 0 } :
          Client.Task).weeklyDayOfWeek = some .friday →
      Client.TaskManagement.isOverdue 0 1000
        { id := "t1", title := "weekly report", type := .weekly, status := .todo,
          assignedUserIds := some ["u1"], createdBy := "u0", dueDate := none,
          weeklyDayOfWeek := some .friday, isPriority := none,
          workStartTime := none, createdAt := 0, updatedAt := 0 } = false) ∧
    (({ id := "t1", title := "weekly report", type := .weekly, status := .todo,
        assignedUserIds := some ["u1"], createdBy := "u0", dueDate := none,
        weeklyDayOfWeek := some .friday, isPriority := none,
        workStartTime := none, createdAt := 0, updatedAt := 0 } :
          Client.Task).weeklyDayOfWeek = some .saturday →
      Client.TaskManagement.isOverdue 4 1000
        { id := "t1", title := "weekly report", type := .weekly, status := .todo,
          assignedUserIds := some ["u1"], createdBy := "u0", dueDate := none,
          weeklyDayOfWeek := some .friday, isPriority := none,
          workStartTime := none, createdAt := 0, updatedAt := 0 } = false) :=
  dayOfWeekCheck_sunday_saturday_spec
    { id := "t1", title := "weekly report", type := .weekly, status := .todo,
      assignedUserIds := some ["u1"], createdBy := "u0", dueDate := none,
      weeklyDayOfWeek := some .friday, isPriority := none,
      workStartTime := none, createdAt := 0, updatedAt := 0 }
    .friday 1000 4 (by norm_num) (by norm_num)

open Functions Functions.WeeklyTaskChecker in
/-- C2: one run of the daily check appends exactly one summary document to
the `overdueReports` collection; in it `totalChecked` counts all tasks of
type `'weekly'`, `overdueCount` equals the length of its `overdueTasks`
list, and the overdue list holds exactly the non-completed weekly tasks
that are overdue: with `weeklyDayOfWeek` set, having a positive day-of-week
delta; without it, having a `dueDate` before the current time. -/
theorem checkWeeklyTaskDeadlines_spec (now currentDay : Int)
    (tasks : List Functions.Task) (users : List Functions.User)
    (reports : List OverdueCheckResult) (t : Functions.Task) :
    checkWeeklyTaskDeadlines now currentDay tasks users reports =
      reports ++ [generateOverdueReport now currentDay tasks users] ∧
    (checkWeeklyTaskDeadlines now currentDay tasks users reports).length =
      reports.length + 1 ∧
    (generateOverdueReport now currentDay tasks users).totalChecked =
      ((tasks.filter fun x => decide (x.type = .weekly)).length : Int) ∧
    (generateOverdueReport now currentDay tasks users).overdueCount =
      ((generateOverdueReport now currentDay tasks users).overdueTasks.length : Int) ∧
    (generateOverdueReport now currentDay tasks users).overdueTasks =
      (getOverdueWeeklyTasks now currentDay tasks).map
        (overdueTaskEntry now currentDay users) ∧
    (t ∈ getOverdueWeeklyTasks now currentDay tasks ↔
      t ∈ tasks ∧ t.type = .weekly ∧ t.status ≠ .completed ∧
        ((∃ d, t.weeklyDayOfWeek = some d ∧ 0 < getDaysOverdue d currentDay) ∨
          (t.weeklyDayOfWeek = none ∧
            ∃ dd, t.dueDate = some dd ∧ dd < now))) := by
  refine ⟨rfl, ?_, rfl, ?_, rfl, ?_⟩
  · simp [checkWeeklyTaskDeadlines, WeeklyTaskChecker.saveReport]
  · simp [generateOverdueReport]
  · unfold getOverdueWeeklyTasks
    constructor
    · intro hmem
      rw [List.mem_filter, List.mem_filter] at hmem
      obtain ⟨⟨ht, hcond⟩, hp⟩ := hmem
      rw [Bool.and_eq_true, decide_eq_true_eq, Bool.not_eq_true',
        decide_eq_false_iff_not] at hcond
      refine ⟨ht, hcond.1, hcond.2, ?_⟩
      cases hwd : t.weeklyDayOfWeek with
      | some d =>
        rw [hwd] at hp
        exact Or.inl ⟨d, rfl, of_decide_eq_true hp⟩
      | none =>
        rw [hwd] at hp
        cases hdd : t.dueDate with
        | some dd =>
          rw [hdd] at hp
          exact Or.inr ⟨rfl, dd, rfl, of_decide_eq_true hp⟩
        | none =>
          rw [hdd] at hp
          exact absurd hp (by simp)
    · rintro ⟨ht, hty, hst, hcase⟩
      rw [List.mem_filter, List.mem_filter]
      refine ⟨⟨ht, ?_⟩, ?_⟩
      · rw [Bool.and_eq_true, decide_eq_true_eq, Bool.not_eq_true',
          decide_eq_false_iff_not]
        exact ⟨hty, hst⟩
      · rcases hcase with ⟨d, hwd, hpos⟩ | ⟨hwd, dd, hdd, hlt⟩
        · rw [hwd]
          exact decide_eq_true hpos
        · rw [hwd, hdd]
          exact decide_eq_true hlt

namespace Client.FirestoreService

theorem conflict_symm : Symmetric fun a b => ¬ conflict a b := by
  intro a b h hc
  exact h ⟨hc.2.1, hc.1, hc.2.2.1.symm, hc.2.2.2.symm⟩

theorem getActiveWorkSession_eq_none_iff (taskId userId : String)
    (workSessions : List WorkSession) :
    getActiveWorkSession taskId userId workSessions = none ↔
      ∀ w ∈ workSessions,
        ¬ (w.taskId = taskId ∧ w.userId = userId ∧ w.isActive = true) := by
  unfold getActiveWorkSession
  rw [List.head?_eq_none_iff, List.filter_eq_nil_iff]
  constructor
  · intro h w hw hc
    exact h w hw (by simp [hc.1, hc.2.1, hc.2.2])
  · intro h w hw hp
    rw [Bool.and_eq_true, Bool.and_eq_true, decide_eq_true_eq,
      decide_eq_true_eq] at hp
    exact h w hw ⟨hp.1.1, hp.1.2, hp.2⟩

theorem mem_of_getActiveWorkSession_eq_some {taskId userId : String}
    {workSessions : List WorkSession} {a : WorkSession}
    (h : getActiveWorkSession taskId userId workSessions = some a) :
    a ∈ workSessions ∧ a.taskId = taskId ∧ a.userId = userId ∧
      a.isActive = true := by
  unfold getActiveWorkSession at h
  have hmem := List.mem_of_mem_head? (l := workSessions.filter _)
    (by rw [h]; exact rfl)
  rw [List.mem_filter, Bool.and_eq_true, Bool.and_eq_true,
    decide_eq_true_eq, decide_eq_true_eq] at hmem
  exact ⟨hmem.1, hmem.2.1.1, hmem.2.1.2, hmem.2.2⟩

end Client.FirestoreService
namespace Client.FirestoreService

theorem closeSession_isActive (now dur : Int) (w : WorkSession) :
    (closeSession now dur w).isActive = false := rfl

end Client.FirestoreService
open Client.FirestoreService in
/-- C6: work time is never double counted. For every task-user pair at most
one active session exists: `startWorkSession` throws (creating nothing)
when one exists and otherwise appends exactly one new active session,
preserving the invariant; `endWorkSession` closes the single active session
of the pair, recording its rounded duration once, after which the pair has
no active session and the invariant still holds; `getDailyWorkTime` sums
each completed (`isActive = false`) session's duration exactly once and
ignores active sessions. -/
theorem workSession_no_double_count_spec (taskId userId date newId : String)
    (now : Int) (workSessions : List WorkSession)
    (hInv : AtMostOneActive workSessions) :
    ((getActiveWorkSession taskId userId workSessions).isSome →
      startWorkSession taskId userId now date newId workSessions =
        .error "作業セッションの開始に失敗しました") ∧
    (getActiveWorkSession taskId userId workSessions = none →
      ∃ w, startWorkSession taskId userId now date newId workSessions =
          .ok (w, workSessions ++ [w]) ∧
        w.isActive = true ∧ w.taskId = taskId ∧ w.userId = userId ∧
        AtMostOneActive (workSessions ++ [w])) ∧
    (∀ a, getActiveWorkSession taskId userId workSessions = some a →
      ∃ dur s',
        dur = round (((now - a.startTime : Int) : ℚ) / (1000 * 60)) ∧
        endWorkSession taskId userId now workSessions =
          .ok (closeSession now dur a, s') ∧
        s' = workSessions.map
          (fun w => if w.id = a.id then closeSession now dur w else w) ∧
        (closeSession now dur a).isActive = false ∧
        (closeSession now dur a).duration = some dur ∧
        getActiveWorkSession taskId userId s' = none ∧
        AtMostOneActive s') ∧
    getDailyWorkTime taskId date workSessions =
      ((workSessions.filter fun w =>
          decide (w.taskId = taskId) && decide (w.date = date) && !w.isActive).map
        fun w => w.duration.getD 0).sum := by
  refine ⟨?_, ?_, ?_, ?_⟩
  · intro h
    obtain ⟨a, ha⟩ := Option.isSome_iff_exists.mp h
    unfold startWorkSession
    rw [ha]
  · intro h
    refine ⟨{ id := newId, taskId := taskId, userId := userId, startTime := now
              endTime := none, duration := none, date := date, isActive := true
              createdAt := now, updatedAt := now }, ?_, rfl, rfl, rfl, ?_⟩
    · unfold startWorkSession
      rw [h]
    · rw [AtMostOneActive, List.pairwise_append]
      refine ⟨hInv, by simp, ?_⟩
      intro x hx y hy hc
      simp only [List.mem_singleton] at hy
      subst hy
      rw [getActiveWorkSession_eq_none_iff] at h
      exact h x hx ⟨hc.2.2.1, hc.2.2.2, hc.1⟩
  · intro a ha
    obtain ⟨haMem, haT, haU, haA⟩ := mem_of_getActiveWorkSession_eq_some ha
    refine ⟨_, _, rfl, ?_, rfl, rfl, rfl, ?_, ?_⟩
    · unfold endWorkSession
      rw [ha]
    · rw [getActiveWorkSession_eq_none_iff]
      intro w hw hc
      rw [List.mem_map] at hw
      obtain ⟨y, hy, hfy⟩ := hw
      by_cases hid : y.id = a.id
      · rw [if_pos hid] at hfy
        rw [← hfy] at hc
        exact absurd hc.2.2 (by rw [closeSession_isActive]; simp)
      · rw [if_neg hid] at hfy
        subst hfy
        have hy_ne_a : y ≠ a := fun he => hid (by rw [he])
        exact List.Pairwise.forall conflict_symm hInv hy haMem hy_ne_a
          ⟨hc.2.2, haA, hc.1.trans haT.symm, hc.2.1.trans haU.symm⟩
    · rw [AtMostOneActive, List.pairwise_map]
      refine hInv.imp ?_
      intro x y hxy hc
      apply hxy
      by_cases hx : x.id = a.id
      · rw [if_pos hx] at hc
        exact absurd hc.1 (by rw [closeSession_isActive]; simp)
      · rw [if_neg hx] at hc
        by_cases hy : y.id = a.id
        · rw [if_pos hy] at hc
          exact absurd hc.2.1 (by rw [closeSession_isActive]; simp)
        · rw [if_neg hy] at hc
          exact hc
  · unfold getDailyWorkTime
    refine congrArg List.sum (List.map_congr_left ?_)
    intro w hw
    cases hd : w.duration with
    | none => rfl
    | some d =>
      by_cases h0 : d = 0 <;> simp [h0]
open Client.FirestoreService in
/-- C6 witness: with one active session for the pair `("t1", "u1")` on the
books (a state satisfying the invariant), a second `startWorkSession` for
the same pair throws and creates nothing. -/
theorem workSession_no_double_count_spec_witness :
    AtMostOneActive [sampleWorkSession] ∧
    startWorkSession "t1" "u1" 600000 "2024-05-01" "s2" [sampleWorkSession] =
      .error "作業セッションの開始に失敗しました" :=
  ⟨by simp [AtMostOneActive],
    (workSession_no_double_count_spec "t1" "u1" "2024-05-01" "s2" 600000
      [sampleWorkSession] (by simp [AtMostOneActive])).1 (by decide)⟩

namespace Functions

theorem deleteUser_some_some (uid userId : String) (now : Int)
    (st : FirestoreState) :
    deleteUser (some uid) (some userId) now st =
      (if userId = "" then (.error .invalid_argument, st)
       else if uid = userId then (.error .invalid_argument, st)
       else
         match st.users.find? fun u => decide (u.id = userId) with
         | none => (.error .not_found, st)
         | some userData =>
           (.ok { id := userId, name := userData.name
                  employeeId := userData.employeeId },
             { users := st.users.filter fun u => !decide (u.id = userId)
               tasks := cleanupUserTasks userId now st.tasks })) := rfl

end Functions

open Functions in
/-- C9: `deleteUser` throws `unauthenticated` without a caller,
`invalid-argument` for a missing `userId` or for self-deletion, and
`not-found` when no such user document exists — each error path writing
nothing; on success it deletes the user document and removes the deleted
id from every task's `assignedUserIds` that contained it, leaving the
other entries of those arrays unchanged. -/
theorem deleteUser_spec (authUid userIdArg : Option String) (now : Int)
    (st : FirestoreState) :
    (authUid = none →
      deleteUser authUid userIdArg now st = (.error .unauthenticated, st)) ∧
    (∀ uid, authUid = some uid → userIdArg = none →
      deleteUser authUid userIdArg now st = (.error .invalid_argument, st)) ∧
    (∀ uid, authUid = some uid → userIdArg = some uid →
      deleteUser authUid userIdArg now st = (.error .invalid_argument, st)) ∧
    (∀ uid userId, authUid = some uid → userIdArg = some userId →
      userId ≠ "" → uid ≠ userId →
      (st.users.find? fun u => decide (u.id = userId)) = none →
      deleteUser authUid userIdArg now st = (.error .not_found, st)) ∧
    (∀ uid userId userData, authUid = some uid → userIdArg = some userId →
      userId ≠ "" → uid ≠ userId →
      (st.users.find? fun u => decide (u.id = userId)) = some userData →
      deleteUser authUid userIdArg now st =
        (.ok { id := userId, name := userData.name, employeeId := userData.employeeId },
          { users := st.users.filter fun u => !decide (u.id = userId)
            tasks := st.tasks.map (cleanupTask userId now) })) ∧
    (∀ userId (t : Task),
      (userId ∈ t.assignedUserIds →
        (cleanupTask userId now t).assignedUserIds =
          t.assignedUserIds.filter fun i => !decide (i = userId)) ∧
      (userId ∉ t.assignedUserIds → cleanupTask userId now t = t) ∧
      (∀ x, x ≠ userId →
        (x ∈ (cleanupTask userId now t).assignedUserIds ↔
          x ∈ t.assignedUserIds))) := by
  refine ⟨?_, ?_, ?_, ?_, ?_, ?_⟩
  · intro h
    rw [h]
    rfl
  · intro uid h1 h2
    subst h1
    subst h2
    rfl
  · intro uid h1 h2
    subst h1
    subst h2
    rw [deleteUser_some_some]
    by_cases he : uid = ""
    · rw [if_pos he]
    · rw [if_neg he, if_pos rfl]
  · intro uid userId h1 h2 hne hself hfind
    subst h1
    subst h2
    rw [deleteUser_some_some, if_neg hne, if_neg hself, hfind]
  · intro uid userId userData h1 h2 hne hself hfind
    subst h1
    subst h2
    rw [deleteUser_some_some, if_neg hne, if_neg hself, hfind]
    rfl
  · intro userId t
    refine ⟨?_, ?_, ?_⟩
    · intro hmem
      rw [cleanupTask, if_pos (List.elem_iff.mpr hmem)]
    · intro hmem
      rw [cleanupTask,
        if_neg (fun hc => hmem (List.elem_iff.mp hc))]
    · intro x hx
      by_cases hmem : userId ∈ t.assignedUserIds
      · rw [cleanupTask, if_pos (List.elem_iff.mpr hmem)]
        simp only [List.mem_filter, Bool.not_eq_true', decide_eq_false_iff_not]
        exact ⟨fun h => h.1, fun h => ⟨h, hx⟩⟩
      · rw [cleanupTask,
          if_neg (fun hc => hmem (List.elem_iff.mp hc))]

namespace Client.FirestoreService

theorem runCreates_cons (userData : NewUserData) (newId : String) (now : Int)
    (rest : List (NewUserData × String × Int)) (users : List User) :
    runCreates ((userData, newId, now) :: rest) users =
      match createUser userData newId now users with
      | .ok (_, users') => runCreates rest users'
      | .error _ => runCreates rest users := rfl

theorem createUser_ok (userData : NewUserData) (newId : String) (now : Int)
    (users : List User)
    (h : ∀ u ∈ users, u.employeeId ≠ userData.employeeId) :
    createUser userData newId now users =
      .ok (newId, users ++ [newUserDoc userData newId now]) := by
  have hempty : (users.filter fun u => decide (u.employeeId = userData.employeeId)) = [] := by
    rw [List.filter_eq_nil_iff]
    intro u hu
    simpa using h u hu
  unfold createUser
  rw [hempty]
  rfl

theorem createUser_error (userData : NewUserData) (newId : String) (now : Int)
    (users : List User) (u : User) (hu : u ∈ users)
    (he : u.employeeId = userData.employeeId) :
    createUser userData newId now users =
      .error "この社員番号は既に使用されています" := by
  have hne : (users.filter fun u => decide (u.employeeId = userData.employeeId)) ≠ [] :=
    List.ne_nil_of_mem (List.mem_filter.mpr ⟨hu, by simpa using he⟩)
  obtain ⟨a, l, hf⟩ := List.exists_cons_of_ne_nil hne
  unfold createUser
  rw [hf]
  rfl

theorem runCreates_nodup (reqs : List (NewUserData × String × Int)) :
    ∀ users : List User, (users.map fun u => u.employeeId).Nodup →
      ((runCreates reqs users).map fun u => u.employeeId).Nodup := by
  induction reqs with
  | nil => exact fun users h => h
  | cons r rest ih =>
    intro users h
    obtain ⟨userData, newId, now⟩ := r
    rw [runCreates_cons]
    by_cases hfresh : ∀ u ∈ users, u.employeeId ≠ userData.employeeId
    · rw [createUser_ok userData newId now users hfresh]
      apply ih
      rw [List.map_append, List.nodup_append]
      refine ⟨h, List.nodup_singleton _, ?_⟩
      intro a ha hb
      simp only [newUserDoc, List.map_cons, List.map_nil,
        List.mem_singleton] at hb
      subst hb
      rw [List.mem_map] at ha
      obtain ⟨u, hu, he⟩ := ha
      exact hfresh u hu he
    · push_neg at hfresh
      obtain ⟨u, hu, he⟩ := hfresh
      rw [createUser_error userData newId now users u hu he]
      exact ih users h

end Client.FirestoreService
open Client.FirestoreService in
/-- C10: `createUser` throws (adding no user document) whenever an existing
user already holds the requested `employeeId`, and otherwise appends
exactly the one new document; hence any sequence of `createUser` calls
keeps the users' `employeeId`s pairwise distinct when they start out
pairwise distinct. -/
theorem createUser_spec (reqs : List (NewUserData × String × Int))
    (users : List Client.User)
    (hNodup : (users.map fun u => u.employeeId).Nodup) :
    (∀ userData newId now, (∃ u ∈ users, u.employeeId = userData.employeeId) →
      createUser userData newId now users =
        .error "この社員番号は既に使用されています") ∧
    (∀ userData newId now, (∀ u ∈ users, u.employeeId ≠ userData.employeeId) →
      createUser userData newId now users =
        .ok (newId, users ++ [newUserDoc userData newId now])) ∧
    ((runCreates reqs users).map fun u => u.employeeId).Nodup := by
  refine ⟨?_, ?_, runCreates_nodup reqs users hNodup⟩
  · intro userData newId now ⟨u, hu, he⟩
    exact createUser_error userData newId now users u hu he
  · intro userData newId now h
    exact createUser_ok userData newId now users h

open Client.FirestoreService in
/-- C10 witness: starting from an empty collection, creating "E1"/Alice
then attempting "E1"/Bob (refused) leaves the employee ids pairwise
distinct. -/
theorem createUser_spec_witness :
    ((runCreates
        [({ employeeId := "E1", name := "Alice", isAttending := false }, "u1", 0),
         ({ employeeId := "E1", name := "Bob", isAttending := true }, "u2", 1)]
        []).map fun u => u.employeeId).Nodup :=
  (createUser_spec
    [({ employeeId := "E1", name := "Alice", isAttending := false }, "u1", 0),
     ({ employeeId := "E1", name := "Bob", isAttending := true }, "u2", 1)]
    [] (by simp)).2.2

open Functions in
/-- C7: the serverless module exports exactly five entry points — the
daily-cron scheduled `checkWeeklyTaskDeadlines` (at `0 9 * * *`), the three
callables `manualCheckWeeklyDeadlines`, `getOverdueReports` and
`deleteUser`, and the plain HTTP `healthCheck` — and every Firestore access
any of them performs is of an operation kind the client's data-access layer
also uses (the health check touches Firestore not at all). -/
theorem moduleExports_spec :
    moduleExports.length = 5 ∧
    ((moduleExports.filter fun f => decide (f.trigger = .scheduled)).map
      fun f => f.name) = ["checkWeeklyTaskDeadlines"] ∧
    ((moduleExports.filter fun f => decide (f.trigger = .callable)).map
      fun f => f.name) =
        ["manualCheckWeeklyDeadlines", "getOverdueReports", "deleteUser"] ∧
    ((moduleExports.filter fun f => decide (f.trigger = .httpRequest)).map
      fun f => f.name) = ["healthCheck"] ∧
    (∀ f ∈ moduleExports, f.trigger = .scheduled →
      f.schedule = some "0 9 * * *") ∧
    (∀ f ∈ moduleExports, ∀ a ∈ f.accesses,
      ∃ b ∈ clientFirestoreAccesses, b.op = a.op) := by
  refine ⟨rfl, rfl, rfl, rfl, by decide, by decide⟩
